import Mathlib

/-!
Shallow embedding of the blockchain-ledger core of `streamlit_app.py`
(money-laundering-detection repository): the `Transaction` record, the
`Block` and `BlockchainLedger` classes, and the ingestion pipeline
`process_transactions`.

Modelling conventions:
* SHA-256 (`hashlib.sha256(...).hexdigest()`) is abstracted as a function
  `H : String → String` passed to every definition that hashes; claims
  that need collision resistance take injectivity of `H` as a hypothesis.
* `time.time()` is modelled by an explicit timestamp argument: the caller
  supplies the timestamp string of each block at its creation instant.
* Python floats are modelled as rationals; `str` of the amount is the
  canonical string of the rational (deterministic, as Python float repr is).
* raw pandas cell values are modelled by `PyVal` (int, float, string or
  missing), with Python `bool`, `int` and `float` conversions on them.
-/

namespace MLApp

/-- A raw Python value as it sits in a pandas row cell: an integer, a float
(modelled as a rational), a string, or a missing value (`None`/`NaN`). -/
inductive PyVal where
  | pint (n : Int)
  | pfloat (q : Rat)
  | pstr (s : String)
  | pnone
deriving DecidableEq, Repr

/-- Python truthiness `bool(v)`: zero numbers, the empty string and a
missing value are falsy; every other value is truthy. -/
def pyBool : PyVal → Bool
  | .pint n => n != 0
  | .pfloat q => q != 0
  | .pstr s => s != ""
  | .pnone => false

/-- Parse a non-empty all-digit character list as a natural number. -/
def parseDigits (cs : List Char) : Option Nat :=
  if cs.isEmpty then none
  else if cs.all (fun c => c.isDigit) then
    some (cs.foldl (fun a c => a * 10 + (c.toNat - 48)) 0)
  else none

/-- Integer parsing of a string: an optional sign followed by digits. It
stands for Python `int` on strings (and for the integer-literal fragment of
Python `float` on strings); any other string raises, modelled as `none`. -/
def strToInt (s : String) : Option Int :=
  match s.data with
  | '-' :: cs => (parseDigits cs).map fun n => -(n : Int)
  | cs => (parseDigits cs).map fun n => (n : Int)

/-- Python `int(v)` as applied to the `Is_laundering` cell: numbers convert
(floats truncate toward zero), strings spelling an integer parse, and any
other string or a missing value raises — modelled as `none`. -/
def pyInt : PyVal → Option Int
  | .pint n => some n
  | .pfloat q => some (if 0 ≤ q then ⌊q⌋ else ⌈q⌉)
  | .pstr s => strToInt s
  | .pnone => none

/-- Python `float(v)` as applied to the `Amount` cell: numbers convert,
numeric-literal strings parse (integer literals stand in for Python float
parsing), and any other string or a missing value raises — modelled as
`none`. -/
def pyFloat : PyVal → Option Rat
  | .pint n => some (n : Rat)
  | .pfloat q => some q
  | .pstr s => (strToInt s).map fun n => (n : Rat)
  | .pnone => none

/-- Python `str(v)` for the non-amount fields interpolated by f-strings. -/
def pyStr : PyVal → String
  | .pint n => toString n
  | .pfloat q => toString q
  | .pstr s => s
  | .pnone => "None"

/-- The `Transaction` record, fields exactly as stored by
`Transaction.__init__` (the laundering indicator already coerced through
`bool`, the amount already a number). -/
structure Transaction where
  sender : PyVal
  receiver : PyVal
  amount : Rat
  currency : PyVal
  is_laundering : Bool
  payment_type : PyVal
deriving DecidableEq, Repr

/-- `Transaction.__init__`: stores the raw field values, coercing the
laundering indicator through Python `bool`. It accepts every value for
`is_laundering` and never fails. -/
def Transaction.init (sender receiver : PyVal) (amount : Rat)
    (currency : PyVal) (is_laundering : PyVal) (payment_type : PyVal) :
    Transaction :=
  { sender := sender, receiver := receiver, amount := amount,
    currency := currency, is_laundering := pyBool is_laundering,
    payment_type := payment_type }

/-- `str(self.amount)` inside `Transaction.__str__`: the deterministic
canonical rendering of the amount. -/
def amountStr (q : Rat) : String := toString q

/-- `Transaction.__str__`:
`f"{sender} → {receiver} | {amount} {currency} | {payment_type} | {status}"`
with `status` the laundering marker. -/
def Transaction.toStr (t : Transaction) : String :=
  let status := if t.is_laundering then "🚨 Suspicious" else "✅ Normal"
  pyStr t.sender ++ " → " ++ pyStr t.receiver ++ " | " ++
    amountStr t.amount ++ " " ++ pyStr t.currency ++ " | " ++
    pyStr t.payment_type ++ " | " ++ status

/-- A block of the ledger, fields exactly as stored by `Block.__init__`. -/
structure Block where
  index : Nat
  timestamp : String
  transactions : List Transaction
  previous_hash : String
  hash : String
deriving DecidableEq, Repr

/-- The Python expression joining the transaction strings:
`txn_str` is the concatenation of `str(txn)` over `self.transactions`. -/
def txnStr (txs : List Transaction) : String :=
  String.join (txs.map Transaction.toStr)

/-- `block_string = f"{self.index}{self.timestamp}{txn_str}{self.previous_hash}"`. -/
def Block.blockString (b : Block) : String :=
  toString b.index ++ b.timestamp ++ txnStr b.transactions ++ b.previous_hash

/-- `Block.calculate_hash`: the digest of `block_string`, with SHA-256
abstracted as `H`. -/
def Block.calculate_hash (H : String → String) (b : Block) : String :=
  H b.blockString

/-- `Block.__init__`: stores index, timestamp (`time.time()` at creation,
supplied by the caller), transactions and previous hash, then computes
`self.hash = self.calculate_hash()` from those stored fields. -/
def Block.init (H : String → String) (index : Nat) (timestamp : String)
    (transactions : List Transaction) (previous_hash : String) : Block :=
  { index := index, timestamp := timestamp, transactions := transactions,
    previous_hash := previous_hash,
    hash := H (toString index ++ timestamp ++ txnStr transactions ++
      previous_hash) }

/-- The ledger state: the chain of blocks and the flat transaction list. -/
structure BlockchainLedger where
  chain : List Block
  all_transactions : List Transaction
deriving DecidableEq, Repr

/-- `create_genesis_block`: `Block(0, [], "0")`. -/
def create_genesis_block (H : String → String) (ts : String) : Block :=
  Block.init H 0 ts [] "0"

/-- `BlockchainLedger.__init__`: chain holding only the genesis block, empty
transaction list. -/
def BlockchainLedger.init (H : String → String) (ts : String) :
    BlockchainLedger :=
  { chain := [create_genesis_block H ts], all_transactions := [] }

/-- `get_latest_block` (`self.chain[-1]`); the chain is never empty in the
program, so the `none` case is unreachable. -/
def BlockchainLedger.get_latest_block (L : BlockchainLedger) : Option Block :=
  L.chain.getLast?

/-- `add_block`: builds a block from the batch, the next index and the
latest block's stored hash, appends it to the chain and extends
`all_transactions`. There is no emptiness guard on the batch. -/
def BlockchainLedger.add_block (H : String → String) (ts : String)
    (L : BlockchainLedger) (transactions : List Transaction) :
    BlockchainLedger :=
  { chain := L.chain ++
      [Block.init H L.chain.length ts transactions
        ((L.get_latest_block.map Block.hash).getD "")],
    all_transactions := L.all_transactions ++ transactions }

/-- The check the `is_chain_valid` loop performs on the adjacent pair
`(chain[i-1], chain[i])`: the current block's stored hash must recompute,
and its `previous_hash` must equal the previous block's STORED hash. -/
def blockOk (H : String → String) (prev curr : Block) : Bool :=
  curr.hash == curr.calculate_hash H && curr.previous_hash == prev.hash

/-- The `for i in range(1, len(self.chain))` walk of `is_chain_valid`:
`false` at the first failing pair, `true` when the walk completes. -/
def chainOk (H : String → String) : List Block → Bool
  | prev :: curr :: rest => blockOk H prev curr && chainOk H (curr :: rest)
  | _ => true

/-- `BlockchainLedger.is_chain_valid`. -/
def BlockchainLedger.is_chain_valid (H : String → String)
    (L : BlockchainLedger) : Bool :=
  chainOk H L.chain

/-- A raw pandas row, restricted to the columns the pipeline reads. -/
structure RawRow where
  sender_account : PyVal
  receiver_account : PyVal
  amount : PyVal
  payment_currency : PyVal
  is_laundering : PyVal
  payment_type : PyVal
deriving DecidableEq, Repr

/-- The `try` body of `process_transactions` for one row: build the
`Transaction`, where `float(row["Amount"])` or `int(row["Is_laundering"])`
may raise — in which case the row yields `none` and is skipped. -/
def parseRow (r : RawRow) : Option Transaction := do
  let a ← pyFloat r.amount
  let fl ← pyInt r.is_laundering
  pure (Transaction.init r.sender_account r.receiver_account a
    r.payment_currency (.pint fl) r.payment_type)

/-- The transactions the pipeline actually constructs, in row order:
malformed rows are dropped. -/
def validTxns (rows : List RawRow) : List Transaction :=
  rows.filterMap parseRow

/-- The row loop of `process_transactions`, carrying the ledger and the
pending batch: a parsed transaction joins the batch, a full batch
(`len(txn_batch) >= block_size`) is appended and the batch reset, a
malformed row is skipped (`except: continue`), and a non-empty leftover
batch is appended after the loop (`if txn_batch:`). `ts` supplies the
`time.time()` timestamp of the block created at a given chain length. -/
def processLoop (H : String → String) (ts : Nat → String)
    (block_size : Int) :
    List RawRow → BlockchainLedger → List Transaction → BlockchainLedger
  | [], L, batch =>
    if batch.isEmpty then L else L.add_block H (ts L.chain.length) batch
  | r :: rest, L, batch =>
    match parseRow r with
    | none => processLoop H ts block_size rest L batch
    | some txn =>
      let batch' := batch ++ [txn]
      if (batch'.length : Int) ≥ block_size then
        processLoop H ts block_size rest
          (L.add_block H (ts L.chain.length) batch') []
      else
        processLoop H ts block_size rest L batch'

/-- `process_transactions(df, block_size)`: a fresh ledger fed by the row
loop (the Python default for `block_size` is 100). -/
def process_transactions (H : String → String) (ts : Nat → String)
    (df : List RawRow) (block_size : Int) : BlockchainLedger :=
  processLoop H ts block_size df (BlockchainLedger.init H (ts 0)) []

/-- Spec §4.2: the canonical transaction string — sender, receiver, amount,
currency, payment type, flagged-as-status marker, in this exact order,
with the program's separators; stated from the spec's words to be compared
with `Transaction.toStr`. -/
def specCanonicalTxn (t : Transaction) : String :=
  pyStr t.sender ++ " → " ++ pyStr t.receiver ++ " | " ++
    amountStr t.amount ++ " " ++ pyStr t.currency ++ " | " ++
    pyStr t.payment_type ++ " | " ++
    (if t.is_laundering then "🚨 Suspicious" else "✅ Normal")

/-- The sizes of the blocks the row loop appends, as a function of the
batch threshold `b`, the pending-batch size `m` and the number `n` of
valid transactions still to arrive; used to state the batching shape. -/
def blockSizes (b : Nat) : Nat → Nat → List Nat
  | m, 0 => if m = 0 then [] else [m]
  | m, n + 1 => if b ≤ m + 1 then b :: blockSizes b 0 n else blockSizes b (m + 1) n

/-! ### Concrete fixtures used by witnesses and counterexamples -/

/-- A timestamp source standing for `time.time()`. -/
def tsFix : Nat → String := fun n => toString n

/-- A well-formed raw row. -/
def goodRow : RawRow :=
  { sender_account := .pint 1, receiver_account := .pint 2,
    amount := .pint 5, payment_currency := .pstr "USD",
    is_laundering := .pint 1, payment_type := .pstr "wire" }

/-- A second well-formed raw row. -/
def goodRow2 : RawRow :=
  { sender_account := .pint 3, receiver_account := .pint 4,
    amount := .pint 7, payment_currency := .pstr "USD",
    is_laundering := .pint 0, payment_type := .pstr "cash" }

/-- A raw row with a non-numeric amount: `Transaction` construction fails. -/
def badRow : RawRow := { goodRow with amount := .pstr "abc" }

/-- The transaction `goodRow` parses to. -/
def tx1 : Transaction :=
  Transaction.init (.pint 1) (.pint 2) 5 (.pstr "USD") (.pint 1) (.pstr "wire")

/-- An untampered genesis block (with `H = id`). -/
def genesis0 : Block := create_genesis_block id "0.0"

/-- `genesis0` with its transaction list mutated after construction: the
stored `hash` field is unchanged, so the stored fields no longer recompute
to the stored digest. -/
def tamperedGenesis : Block := { genesis0 with transactions := [tx1] }

/-- A correctly linked successor of the original genesis block. -/
def block1 : Block := Block.init id 1 "1.0" [tx1] genesis0.hash

/-- A ledger whose genesis block was mutated after construction. -/
def tamperedLedger : BlockchainLedger :=
  { chain := [tamperedGenesis, block1], all_transactions := [tx1] }

end MLApp

namespace MLApp

/-! ### Basic lemmas about the verification walk -/

theorem blockOk_iff (H : String → String) (p q : Block) :
    blockOk H p q = true ↔
      q.hash = q.calculate_hash H ∧ q.previous_hash = p.hash := by
  simp [blockOk, Bool.and_eq_true]

theorem chainOk_iff_chain' (H : String → String) :
    ∀ c : List Block,
      chainOk H c = true ↔
        List.Chain'
          (fun p q => q.hash = q.calculate_hash H ∧ q.previous_hash = p.hash) c
  | [] => by simp [chainOk]
  | [a] => by simp [chainOk]
  | a :: b :: rest => by
    rw [List.chain'_cons, ← chainOk_iff_chain' H (b :: rest), ← blockOk_iff H a b]
    simp [chainOk, Bool.and_eq_true]

theorem Block.init_hash_recomputes (H : String → String) (i : Nat)
    (ts : String) (txs : List Transaction) (ph : String) :
    (Block.init H i ts txs ph).hash = (Block.init H i ts txs ph).calculate_hash H :=
  rfl

theorem init_ledger_valid (H : String → String) (ts : String) :
    (BlockchainLedger.init H ts).is_chain_valid H = true :=
  rfl

theorem add_block_valid (H : String → String) (ts : String)
    (L : BlockchainLedger) (txs : List Transaction)
    (h : L.is_chain_valid H = true) :
    (L.add_block H ts txs).is_chain_valid H = true := by
  unfold BlockchainLedger.is_chain_valid BlockchainLedger.add_block at *
  rw [chainOk_iff_chain'] at h ⊢
  rw [List.chain'_append]
  refine ⟨h, List.chain'_singleton _, ?_⟩
  intro x hx y hy
  simp only [List.head?_cons, Option.mem_def, Option.some.injEq] at hy
  subst hy
  refine ⟨rfl, ?_⟩
  simp only [Option.mem_def, List.getLast?_eq_some_iff] at hx
  simp [Block.init, BlockchainLedger.get_latest_block, List.getLast?_eq_some_iff.mpr hx]

theorem processLoop_valid (H : String → String) (ts : Nat → String)
    (bs : Int) :
    ∀ (rows : List RawRow) (L : BlockchainLedger) (batch : List Transaction),
      L.is_chain_valid H = true →
      (processLoop H ts bs rows L batch).is_chain_valid H = true
  | [], L, batch, h => by
    unfold processLoop
    by_cases hb : batch.isEmpty <;> simp [hb, h, add_block_valid]
  | r :: rest, L, batch, h => by
    unfold processLoop
    cases hp : parseRow r with
    | none => exact processLoop_valid H ts bs rest L batch h
    | some txn =>
      by_cases hfull : ((batch ++ [txn]).length : Int) ≥ bs
      · simp only [hfull, if_pos]
        exact processLoop_valid H ts bs rest _ [] (add_block_valid _ _ _ _ h)
      · simp only [hfull, if_neg, not_false_eq_true]
        exact processLoop_valid H ts bs rest L (batch ++ [txn]) h

theorem processLoop_all_transactions (H : String → String)
    (ts : Nat → String) (bs : Int) :
    ∀ (rows : List RawRow) (L : BlockchainLedger) (batch : List Transaction),
      (processLoop H ts bs rows L batch).all_transactions =
        L.all_transactions ++ batch ++ validTxns rows
  | [], L, batch => by
    unfold processLoop
    by_cases hb : batch.isEmpty
    · rw [List.isEmpty_iff] at hb
      subst hb
      simp [validTxns]
    · simp [hb, BlockchainLedger.add_block, validTxns]
  | r :: rest, L, batch => by
    unfold processLoop
    cases hp : parseRow r with
    | none =>
      rw [processLoop_all_transactions H ts bs rest L batch]
      simp [validTxns, List.filterMap_cons, hp]
    | some txn =>
      by_cases hfull : ((batch ++ [txn]).length : Int) ≥ bs
      · simp only [hfull, if_pos]
        rw [processLoop_all_transactions H ts bs rest _ []]
        simp [BlockchainLedger.add_block, validTxns, List.filterMap_cons, hp]
      · simp only [hfull, if_neg, not_false_eq_true]
        rw [processLoop_all_transactions H ts bs rest L (batch ++ [txn])]
        simp [validTxns, List.filterMap_cons, hp]

theorem length_validTxns_add_badCount :
    ∀ rows : List RawRow,
      (validTxns rows).length +
          rows.countP (fun r => (parseRow r).isNone) = rows.length
  | [] => rfl
  | r :: rest => by
    have ih := length_validTxns_add_badCount rest
    cases hp : parseRow r <;>
      simp [validTxns, List.filterMap_cons, hp, List.countP_cons] at ih ⊢ <;>
      omega

/-! ### Claim theorems -/

/-- C1 (amended): `is_chain_valid` returns true iff every block from index 1
onward both recomputes its stored digest from its stored fields and has a
`previous_digest` equal to the prior block's STORED digest (the prior
block's digest is not recomputed for the link check, so a genesis block
whose fields no longer recompute to its stored digest is not detected). -/
theorem is_chain_valid_iff_checks (H : String → String)
    (L : BlockchainLedger) :
    L.is_chain_valid H = true ↔
      ∀ (i : Nat) (h : i + 1 < L.chain.length),
        (L.chain.get ⟨i + 1, h⟩).hash =
            (L.chain.get ⟨i + 1, h⟩).calculate_hash H ∧
          (L.chain.get ⟨i + 1, h⟩).previous_hash =
            (L.chain.get ⟨i, by omega⟩).hash := by
  rw [BlockchainLedger.is_chain_valid, chainOk_iff_chain', List.chain'_iff_get]
  constructor
  · intro hc i h
    exact hc i (by omega)
  · intro hc i h
    exact hc i (by omega)

/-- C1 (counterexample): a chain whose genesis block's stored fields no
longer recompute to its stored digest, on which `is_chain_valid` still
returns true — the genesis digest is never recomputed. -/
theorem genesis_tamper_not_detected :
    tamperedLedger.is_chain_valid id = true ∧
    tamperedGenesis.hash ≠ tamperedGenesis.calculate_hash id := by
  exact ⟨by decide, by decide⟩

/-- C3: `is_chain_valid` on a freshly built ledger returns true: validity is
established by the ledger constructor and preserved by every block append
the pipeline performs. -/
theorem fresh_ledger_valid (H : String → String) (ts : Nat → String)
    (df : List RawRow) (bs : Int) (_h : 1 ≤ (validTxns df).length) :
    (process_transactions H ts df bs).is_chain_valid H = true :=
  processLoop_valid H ts bs df _ [] (init_ledger_valid H (ts 0))

/-- C3 (witness): a concrete three-row input (one malformed) builds a ledger
that verifies. -/
theorem fresh_ledger_valid_witness :
    1 ≤ (validTxns [goodRow, badRow, goodRow2]).length ∧
    (process_transactions id tsFix [goodRow, badRow, goodRow2] 2).is_chain_valid
      id = true :=
  ⟨by decide, fresh_ledger_valid id tsFix [goodRow, badRow, goodRow2] 2 (by decide)⟩

/-- C4 (counterexample): `add_block` with an empty batch is not a no-op: the
chain length changes from 1 to 2. -/
theorem empty_batch_changes_chain :
    ((BlockchainLedger.init id "0.0").add_block id "1.0" []).chain.length = 2 ∧
    (BlockchainLedger.init id "0.0").chain.length = 1 :=
  ⟨rfl, rfl⟩

/-- C4 (amended): `add_block` with an empty batch appends one block holding
no transactions: the chain length grows by one, while `all_transactions`
is unchanged. -/
theorem add_block_empty_batch (H : String → String) (ts : String)
    (L : BlockchainLedger) :
    (L.add_block H ts []).chain.length = L.chain.length + 1 ∧
    (L.add_block H ts []).all_transactions = L.all_transactions ∧
    (L.add_block H ts []).chain.getLast?.map Block.transactions = some [] := by
  refine ⟨?_, ?_, ?_⟩
  · simp [BlockchainLedger.add_block]
  · simp [BlockchainLedger.add_block]
  · simp [BlockchainLedger.add_block, Block.init]

/-- C9: the verification walk never reads any genesis-block field other than
its stored `hash`: two ledgers that differ only in the genesis block's
other fields (and in `all_transactions`) get the same `is_chain_valid`
verdict. -/
theorem verify_ignores_genesis_fields (H : String → String) (g g' : Block)
    (rest : List Block) (t t' : List Transaction) (h : g.hash = g'.hash) :
    BlockchainLedger.is_chain_valid H ⟨g :: rest, t⟩ =
      BlockchainLedger.is_chain_valid H ⟨g' :: rest, t'⟩ := by
  cases rest with
  | nil => rfl
  | cons b rest' => simp [BlockchainLedger.is_chain_valid, chainOk, blockOk, h]

/-- C9 (witness): mutating the genesis block's transactions while keeping
its stored hash leaves the verdict unchanged. -/
theorem verify_ignores_genesis_fields_witness :
    genesis0.hash = tamperedGenesis.hash ∧
    BlockchainLedger.is_chain_valid id ⟨genesis0 :: [block1], []⟩ =
      BlockchainLedger.is_chain_valid id ⟨tamperedGenesis :: [block1], [tx1]⟩ :=
  ⟨rfl, verify_ignores_genesis_fields id genesis0 tamperedGenesis [block1] [] [tx1] rfl⟩

/-- C5: the digest is `H` applied to the concatenation, in order, of the
block's index as text, its timestamp as text, the ordered concatenation of
each transaction's canonical string (fields in the order sender, receiver,
amount, currency, payment type, flagged-status marker), and the previous
block's stored digest; the canonical amount rendering is the exact string
of the rational, so recomputation from the stored fields is deterministic. -/
theorem digest_structure (H : String → String) (b : Block) :
    b.calculate_hash H =
      H (toString b.index ++ b.timestamp ++
        String.join (b.transactions.map specCanonicalTxn) ++
        b.previous_hash) ∧
    ∀ t : Transaction, Transaction.toStr t = specCanonicalTxn t := by
  have hfun : Transaction.toStr = specCanonicalTxn := funext fun t => rfl
  refine ⟨?_, fun t => rfl⟩
  rw [Block.calculate_hash, Block.blockString, txnStr, hfun]

/-- C8: a row on which transaction construction fails is skipped and no
error escapes the pipeline: with exactly one malformed row, the built
ledger holds exactly the transactions of the valid rows — one fewer than
the number of input rows. -/
theorem malformed_rows_skipped (H : String → String) (ts : Nat → String)
    (df : List RawRow) (bs : Int)
    (h : df.countP (fun r => (parseRow r).isNone) = 1) :
    (process_transactions H ts df bs).all_transactions = validTxns df ∧
    (process_transactions H ts df bs).all_transactions.length + 1 =
      df.length := by
  have hall : (process_transactions H ts df bs).all_transactions =
      validTxns df := by
    rw [process_transactions, processLoop_all_transactions]
    simp [BlockchainLedger.init]
  refine ⟨hall, ?_⟩
  rw [hall]
  have hcount := length_validTxns_add_badCount df
  omega

/-- C8 (witness): three rows, the middle one with a non-numeric amount: the
ledger holds two transactions. -/
theorem malformed_rows_skipped_witness :
    [goodRow, badRow, goodRow2].countP (fun r => (parseRow r).isNone) = 1 ∧
    (process_transactions id tsFix [goodRow, badRow, goodRow2]
        100).all_transactions = validTxns [goodRow, badRow, goodRow2] ∧
    (process_transactions id tsFix [goodRow, badRow, goodRow2]
        100).all_transactions.length + 1 = ([goodRow, badRow, goodRow2] :
          List RawRow).length :=
  ⟨by decide,
    malformed_rows_skipped id tsFix [goodRow, badRow, goodRow2] 100 (by decide)⟩

/-- C10: `Transaction.__init__` never rejects the flagged indicator — it
coerces any value through Python truthiness (nonzero numbers and non-empty
strings give `true`; zero, the empty string and a missing value give
`false`); a flag value that `int` cannot interpret is rejected only by the
ingestion pipeline's integer conversion, never by the record constructor. -/
theorem flag_coerced_by_truthiness :
    (∀ s r c p : PyVal, ∀ a : Rat, ∀ v : PyVal,
      (Transaction.init s r a c v p).is_laundering = pyBool v) ∧
    (∀ n : Int, pyBool (.pint n) = decide (n ≠ 0)) ∧
    (∀ q : Rat, pyBool (.pfloat q) = decide (q ≠ 0)) ∧
    (∀ s : String, pyBool (.pstr s) = decide (s ≠ "")) ∧
    pyBool .pnone = false ∧
    pyInt (.pstr "suspicious") = none ∧
    (Transaction.init (.pint 1) (.pint 2) 5 (.pstr "USD")
      (.pstr "suspicious") (.pstr "wire")).is_laundering = true ∧
    parseRow { goodRow with is_laundering := .pstr "suspicious" } = none := by
  refine ⟨fun s r c p a v => rfl, fun n => ?_, fun q => ?_, fun s => ?_,
    rfl, by decide, by decide, by decide⟩
  · by_cases h : n = 0 <;> simp [pyBool, h]
  · by_cases h : q = 0 <;> simp [pyBool, h]
  · by_cases h : s = "" <;> simp [pyBool, h]

theorem processLoop_nonpositive (H : String → String) (ts : Nat → String)
    (bs : Int) (hbs : bs ≤ 0) :
    ∀ (rows : List RawRow) (L : BlockchainLedger),
      (processLoop H ts bs rows L []).chain.length =
          L.chain.length + (validTxns rows).length ∧
        (processLoop H ts bs rows L []).chain.map
            (fun bl => bl.transactions.length) =
          L.chain.map (fun bl => bl.transactions.length) ++
            List.replicate (validTxns rows).length 1 ∧
        (processLoop H ts bs rows L []).all_transactions =
          L.all_transactions ++ validTxns rows
  | [], L => by simp [processLoop, validTxns]
  | r :: rest, L => by
    unfold processLoop
    cases hp : parseRow r with
    | none =>
      have ih := processLoop_nonpositive H ts bs hbs rest L
      simpa [validTxns, List.filterMap_cons, hp] using ih
    | some txn =>
      have hfull : ((([] ++ [txn] : List Transaction).length : Nat) : Int) ≥ bs := by
        simp only [List.nil_append, List.length_cons, List.length_nil]
        omega
      simp only [List.nil_append] at hfull ⊢
      rw [if_pos hfull]
      have ih := processLoop_nonpositive H ts bs hbs rest
        (L.add_block H (ts L.chain.length) [txn])
      have hlen : (L.add_block H (ts L.chain.length) [txn]).chain.length =
          L.chain.length + 1 := by
        simp [BlockchainLedger.add_block]
      have hmap : (L.add_block H (ts L.chain.length) [txn]).chain.map
            (fun bl => bl.transactions.length) =
          L.chain.map (fun bl => bl.transactions.length) ++ [1] := by
        simp [BlockchainLedger.add_block, Block.init]
      have hall : (L.add_block H (ts L.chain.length) [txn]).all_transactions =
          L.all_transactions ++ [txn] := rfl
      have hv : validTxns (r :: rest) = txn :: validTxns rest := by
        simp [validTxns, List.filterMap_cons, hp]
      refine ⟨?_, ?_, ?_⟩
      · rw [ih.1, hlen, hv]
        simp only [List.length_cons]
        omega
      · rw [ih.2.1, hmap, hv]
        simp [List.append_assoc, List.replicate_succ]
      · rw [ih.2.2, hall, hv]
        simp [List.append_assoc]

theorem blockSizes_closed (b : Nat) (hb : 0 < b) :
    ∀ (n m : Nat), m < b →
      blockSizes b m n =
        List.replicate ((m + n) / b) b ++
          (if (m + n) % b = 0 then [] else [(m + n) % b])
  | 0, m, hm => by
    simp only [blockSizes]
    rw [Nat.div_eq_of_lt (by omega : m + 0 < b),
      Nat.mod_eq_of_lt (by omega : m + 0 < b)]
    by_cases h : m = 0 <;> simp [h]
  | n + 1, m, hm => by
    simp only [blockSizes]
    by_cases h : b ≤ m + 1
    · rw [if_pos h, blockSizes_closed b hb n 0 hb]
      have h2 : m + (n + 1) = n + b := by omega
      rw [h2, Nat.add_div_right n hb, Nat.add_mod_right n b]
      simp [List.replicate_succ]
    · rw [if_neg h, blockSizes_closed b hb n (m + 1) (by omega)]
      have h2 : m + 1 + n = m + (n + 1) := by omega
      rw [h2]

theorem length_sizes_eq_ceil (b n : Nat) (hb : 0 < b) :
    (List.replicate (n / b) b ++
        (if n % b = 0 then [] else [n % b])).length = (n + b - 1) / b := by
  have hmod : n % b < b := Nat.mod_lt n hb
  have hdm : b * (n / b) + n % b = n := Nat.div_add_mod n b
  by_cases hr : n % b = 0
  · rw [if_pos hr]
    have h1 : n + b - 1 = (b - 1) + b * (n / b) := by omega
    rw [h1, Nat.add_mul_div_left _ _ hb,
      Nat.div_eq_of_lt (by omega : b - 1 < b)]
    simp
  · rw [if_neg hr]
    have h1 : n + b - 1 = (n % b - 1) + (b * (n / b) + b) := by omega
    rw [h1, ← Nat.mul_succ, Nat.add_mul_div_left _ _ hb,
      Nat.div_eq_of_lt (by omega : n % b - 1 < b)]
    simp [List.length_append]

theorem sizes_getLast (b n : Nat) (_hb : 0 < b) (hn : 0 < n) :
    (0 :: (List.replicate (n / b) b ++
        (if n % b = 0 then [] else [n % b]))).getLast? =
      some (if n % b = 0 then b else n % b) := by
  by_cases hr : n % b = 0
  · rw [if_pos hr, if_pos hr, List.append_nil]
    have hq : n / b ≠ 0 := by
      intro h0
      have hdm := Nat.div_add_mod n b
      rw [h0, hr] at hdm
      omega
    cases hq2 : n / b with
    | zero => exact absurd hq2 hq
    | succ q =>
      rw [List.replicate_succ', ← List.cons_append, List.getLast?_concat]
  · rw [if_neg hr, if_neg hr, ← List.cons_append, List.getLast?_concat]

theorem processLoop_chain_join (H : String → String) (ts : Nat → String)
    (bs : Int) :
    ∀ (rows : List RawRow) (L : BlockchainLedger) (batch : List Transaction),
      ((processLoop H ts bs rows L batch).chain.map Block.transactions).flatten =
        (L.chain.map Block.transactions).flatten ++ batch ++ validTxns rows
  | [], L, batch => by
    unfold processLoop
    by_cases hb : batch.isEmpty
    · rw [List.isEmpty_iff] at hb
      subst hb
      simp [validTxns]
    · simp [hb, BlockchainLedger.add_block, Block.init, validTxns]
  | r :: rest, L, batch => by
    unfold processLoop
    cases hp : parseRow r with
    | none =>
      rw [processLoop_chain_join H ts bs rest L batch]
      simp [validTxns, List.filterMap_cons, hp]
    | some txn =>
      by_cases hfull : ((batch ++ [txn]).length : Int) ≥ bs
      · simp only [hfull, if_pos]
        rw [processLoop_chain_join H ts bs rest _ []]
        simp [BlockchainLedger.add_block, Block.init, validTxns,
          List.filterMap_cons, hp]
      · simp only [hfull, if_neg, not_false_eq_true]
        rw [processLoop_chain_join H ts bs rest L (batch ++ [txn])]
        simp [validTxns, List.filterMap_cons, hp]

theorem processLoop_sizes (H : String → String) (ts : Nat → String)
    (b : Nat) (hb : 0 < b) :
    ∀ (rows : List RawRow) (L : BlockchainLedger) (batch : List Transaction),
      batch.length < b →
      (processLoop H ts (b : Int) rows L batch).chain.map
          (fun bl => bl.transactions.length) =
        L.chain.map (fun bl => bl.transactions.length) ++
          blockSizes b batch.length (validTxns rows).length
  | [], L, batch, hlen => by
    unfold processLoop
    by_cases hbp : batch.isEmpty
    · rw [List.isEmpty_iff] at hbp
      subst hbp
      simp [blockSizes, validTxns]
    · have hne : batch.length ≠ 0 := by
        cases batch with
        | nil => simp at hbp
        | cons hd tl => simp
      simp [hbp, BlockchainLedger.add_block, Block.init, blockSizes,
        validTxns, hne]
  | r :: rest, L, batch, hlen => by
    unfold processLoop
    cases hp : parseRow r with
    | none =>
      rw [processLoop_sizes H ts b hb rest L batch hlen]
      simp [validTxns, List.filterMap_cons, hp]
    | some txn =>
      have hv : (validTxns (r :: rest)).length = (validTxns rest).length + 1 := by
        simp [validTxns, List.filterMap_cons, hp]
      have hlen1 : (batch ++ [txn]).length = batch.length + 1 := by simp
      by_cases hfull : (((batch ++ [txn]).length : Nat) : Int) ≥ (b : Int)
      · have hble : b ≤ batch.length + 1 := by
          rw [hlen1] at hfull
          exact_mod_cast hfull
        simp only [hfull, if_pos]
        rw [processLoop_sizes H ts b hb rest _ [] (by simpa using hb)]
        have hmap : (L.add_block H (ts L.chain.length) (batch ++ [txn])).chain.map
              (fun bl => bl.transactions.length) =
            L.chain.map (fun bl => bl.transactions.length) ++
              [batch.length + 1] := by
          simp [BlockchainLedger.add_block, Block.init]
        rw [hmap, hv]
        have hbeq : batch.length + 1 = b := by omega
        simp only [blockSizes, if_pos hble, hbeq, List.length_nil,
          List.append_assoc, List.singleton_append]
        rw [if_pos (le_refl b)]
      · have hnle : ¬ b ≤ batch.length + 1 := by
          intro hc
          apply hfull
          rw [hlen1]
          exact_mod_cast hc
        simp only [hfull, if_neg, not_false_eq_true]
        rw [processLoop_sizes H ts b hb rest L (batch ++ [txn]) (by rw [hlen1]; omega)]
        rw [hv, hlen1]
        simp only [blockSizes, if_neg hnle]

/-- C7 (counterexample): a batch size of 0 is not rejected at construction:
`process_transactions` returns a ledger with the valid row ingested into
its own block. -/
theorem zero_batch_size_accepted :
    (process_transactions id tsFix [goodRow] 0).chain.length = 2 ∧
    (process_transactions id tsFix [goodRow] 0).all_transactions = [tx1] :=
  ⟨by decide, by decide⟩

/-- C7 (amended): the pipeline performs no batch-size validation: for any
batch size ≤ 0 it still builds a ledger, appending every valid row as its
own single-transaction block. -/
theorem nonpositive_batch_not_rejected (H : String → String)
    (ts : Nat → String) (df : List RawRow) (bs : Int) (hbs : bs ≤ 0) :
    (process_transactions H ts df bs).chain.length =
        1 + (validTxns df).length ∧
      (process_transactions H ts df bs).chain.map
          (fun bl => bl.transactions.length) =
        0 :: List.replicate (validTxns df).length 1 ∧
      (process_transactions H ts df bs).all_transactions = validTxns df := by
  have h := processLoop_nonpositive H ts bs hbs df (BlockchainLedger.init H (ts 0))
  rw [process_transactions]
  exact ⟨by rw [h.1]; rfl, by rw [h.2.1]; rfl, by rw [h.2.2]; rfl⟩

theorem string_middle_cancel {a m1 m2 s : String}
    (h : a ++ m1 ++ s = a ++ m2 ++ s) : m1 = m2 := by
  have hd := congrArg String.data h
  simp only [String.data_append] at hd
  have h1 := List.append_cancel_right hd
  have h2 := List.append_cancel_left h1
  cases m1
  cases m2
  exact congrArg String.mk h2

theorem chainOk_true_get (H : String → String) {c : List Block}
    (h : chainOk H c = true) (i : Nat) (hi : i + 1 < c.length) :
    (c.get ⟨i + 1, hi⟩).hash = (c.get ⟨i + 1, hi⟩).calculate_hash H ∧
      (c.get ⟨i + 1, hi⟩).previous_hash = (c.get ⟨i, by omega⟩).hash := by
  rw [chainOk_iff_chain', List.chain'_iff_get] at h
  exact h i (by omega)

theorem chainOk_tamper_false (H : String → String)
    (hinj : Function.Injective H) (c : List Block)
    (hv : chainOk H c = true) (i : Nat) (h1 : 1 ≤ i) (hi : i < c.length)
    (txs' : List Transaction)
    (hdiff : txnStr txs' ≠ txnStr (c.get ⟨i, hi⟩).transactions) :
    chainOk H (c.set i { c.get ⟨i, hi⟩ with transactions := txs' }) = false := by
  cases hok : chainOk H (c.set i { c.get ⟨i, hi⟩ with transactions := txs' }) with
  | false => rfl
  | true =>
    exfalso
    obtain ⟨j, rfl⟩ : ∃ j, i = j + 1 := ⟨i - 1, by omega⟩
    have hj1 : j + 1 <
        (c.set (j + 1) { c.get ⟨j + 1, hi⟩ with transactions := txs' }).length := by
      rw [List.length_set]
      exact hi
    have hpair := chainOk_true_get H hok j hj1
    have hget : (c.set (j + 1)
          { c.get ⟨j + 1, hi⟩ with transactions := txs' }).get ⟨j + 1, hj1⟩ =
        { c.get ⟨j + 1, hi⟩ with transactions := txs' } := by
      simp [List.getElem_set_self]
    rw [hget] at hpair
    have hvpair := chainOk_true_get H hv j hi
    have hHeq : H (c.get ⟨j + 1, hi⟩).blockString =
        H ({ c.get ⟨j + 1, hi⟩ with transactions := txs' } : Block).blockString := by
      have ha : (c.get ⟨j + 1, hi⟩).hash = H (c.get ⟨j + 1, hi⟩).blockString :=
        hvpair.1
      have hb2 : ({ c.get ⟨j + 1, hi⟩ with transactions := txs' } : Block).hash =
          H ({ c.get ⟨j + 1, hi⟩ with transactions := txs' } : Block).blockString :=
        hpair.1
      rw [← ha, ← hb2]
    have hbs := hinj hHeq
    apply hdiff
    have hbs' : toString (c.get ⟨j + 1, hi⟩).index ++
          (c.get ⟨j + 1, hi⟩).timestamp ++
          txnStr (c.get ⟨j + 1, hi⟩).transactions ++
          (c.get ⟨j + 1, hi⟩).previous_hash =
        toString (c.get ⟨j + 1, hi⟩).index ++
          (c.get ⟨j + 1, hi⟩).timestamp ++ txnStr txs' ++
          (c.get ⟨j + 1, hi⟩).previous_hash := by
      simpa [Block.blockString] using hbs
    exact (string_middle_cancel hbs').symm

/-- C2: tamper evidence for non-genesis blocks: in a pipeline-built ledger,
replacing the transactions of any block of index ≥ 1 after construction
(stored digests and every other field unchanged) so that the serialized
transaction content differs makes `is_chain_valid` return false, provided
the digest function is injective (collision-free) on strings. -/
theorem tamper_breaks_verification (H : String → String)
    (hinj : Function.Injective H) (ts : Nat → String) (df : List RawRow)
    (bs : Int) (i : Nat) (h1 : 1 ≤ i)
    (hi : i < (process_transactions H ts df bs).chain.length)
    (txs' : List Transaction)
    (hdiff : txnStr txs' ≠
      txnStr ((process_transactions H ts df bs).chain.get ⟨i, hi⟩).transactions) :
    BlockchainLedger.is_chain_valid H
      { chain := (process_transactions H ts df bs).chain.set i
          { (process_transactions H ts df bs).chain.get ⟨i, hi⟩ with
            transactions := txs' },
        all_transactions :=
          (process_transactions H ts df bs).all_transactions } = false := by
  have hv : chainOk H (process_transactions H ts df bs).chain = true :=
    processLoop_valid H ts bs df _ [] (init_ledger_valid H (ts 0))
  exact chainOk_tamper_false H hinj _ hv i h1 hi txs' hdiff

theorem c2_chain_len :
    1 < (process_transactions id tsFix [goodRow, goodRow2] 1).chain.length := by
  decide

/-- C2 (witness): with the identity as (injective) digest function, emptying
the transactions of block 1 of a concrete two-row ledger makes
verification fail. -/
theorem tamper_breaks_verification_witness :
    BlockchainLedger.is_chain_valid id
      { chain := (process_transactions id tsFix [goodRow, goodRow2] 1).chain.set 1
          { (process_transactions id tsFix [goodRow, goodRow2] 1).chain.get
              ⟨1, c2_chain_len⟩ with transactions := [] },
        all_transactions :=
          (process_transactions id tsFix [goodRow, goodRow2] 1).all_transactions }
      = false :=
  tamper_breaks_verification id (fun a b h => h) tsFix [goodRow, goodRow2] 1 1
    (le_refl 1) c2_chain_len [] (by decide)

/-- C6: batching shape of a freshly built ledger: with `v > 0` valid rows
and batch size `b > 0`, the chain's per-block transaction counts are `0`
(genesis) followed by `v / b` full blocks of `b` and, unless `b` divides
`v`, one final block of `v % b`; the chain length is the genesis block plus
`ceil(v / b)`; the blocks' transaction lists concatenate to exactly the
valid transactions in order (every valid row lands in exactly one block);
and the final block holds `v % b` transactions (`b` when evenly
divisible). Instantiating at `v = 250`, `b = 100` gives genesis plus
blocks of sizes 100, 100, 50. -/
theorem built_chain_shape (H : String → String) (ts : Nat → String)
    (df : List RawRow) (b : Nat) (hb : 0 < b)
    (hn : 0 < (validTxns df).length) :
    ((process_transactions H ts df (b : Int)).chain.map
        (fun bl => bl.transactions.length) =
      0 :: (List.replicate ((validTxns df).length / b) b ++
        (if (validTxns df).length % b = 0 then []
         else [(validTxns df).length % b]))) ∧
    (process_transactions H ts df (b : Int)).chain.length =
      1 + ((validTxns df).length + b - 1) / b ∧
    ((process_transactions H ts df (b : Int)).chain.map
        Block.transactions).flatten = validTxns df ∧
    ((process_transactions H ts df (b : Int)).chain.map
        (fun bl => bl.transactions.length)).getLast? =
      some (if (validTxns df).length % b = 0 then b
        else (validTxns df).length % b) := by
  have hmap : (process_transactions H ts df (b : Int)).chain.map
      (fun bl => bl.transactions.length) =
      0 :: (List.replicate ((validTxns df).length / b) b ++
        (if (validTxns df).length % b = 0 then []
         else [(validTxns df).length % b])) := by
    rw [process_transactions,
      processLoop_sizes H ts b hb df _ [] (by simpa using hb)]
    simp only [List.length_nil]
    rw [blockSizes_closed b hb _ 0 hb]
    simp [BlockchainLedger.init, create_genesis_block, Block.init]
  refine ⟨hmap, ?_, ?_, ?_⟩
  · have hlen := congrArg List.length hmap
    rw [List.length_map] at hlen
    rw [hlen, List.length_cons, length_sizes_eq_ceil b _ hb, Nat.add_comm]
  · rw [process_transactions, processLoop_chain_join]
    simp [BlockchainLedger.init, create_genesis_block, Block.init]
  · rw [hmap]
    exact sizes_getLast b _ hb hn

/-- C6 (witness): three rows, one malformed, batch size 2: genesis plus one
full block of 2 valid transactions. -/
theorem built_chain_shape_witness :
    0 < 2 ∧ 0 < (validTxns [goodRow, badRow, goodRow2]).length ∧
    (((process_transactions id tsFix [goodRow, badRow, goodRow2]
          ((2 : Nat) : Int)).chain.map
        (fun bl => bl.transactions.length) =
      0 :: (List.replicate
          ((validTxns [goodRow, badRow, goodRow2]).length / 2) 2 ++
        (if (validTxns [goodRow, badRow, goodRow2]).length % 2 = 0 then []
         else [(validTxns [goodRow, badRow, goodRow2]).length % 2]))) ∧
    (process_transactions id tsFix [goodRow, badRow, goodRow2]
        ((2 : Nat) : Int)).chain.length =
      1 + ((validTxns [goodRow, badRow, goodRow2]).length + 2 - 1) / 2 ∧
    ((process_transactions id tsFix [goodRow, badRow, goodRow2]
        ((2 : Nat) : Int)).chain.map
        Block.transactions).flatten = validTxns [goodRow, badRow, goodRow2] ∧
    ((process_transactions id tsFix [goodRow, badRow, goodRow2]
        ((2 : Nat) : Int)).chain.map
        (fun bl => bl.transactions.length)).getLast? =
      some (if (validTxns [goodRow, badRow, goodRow2]).length % 2 = 0 then 2
        else (validTxns [goodRow, badRow, goodRow2]).length % 2)) :=
  ⟨by decide, by decide,
    built_chain_shape id tsFix [goodRow, badRow, goodRow2] 2 (by decide)
      (by decide)⟩

/-- C7 (amended, witness): batch size `-3` on a two-good-one-bad input
yields genesis plus two single-transaction blocks. -/
theorem nonpositive_batch_not_rejected_witness :
    (-3 : Int) ≤ 0 ∧
    (process_transactions id tsFix [goodRow, badRow, goodRow2]
        (-3)).chain.length =
      1 + (validTxns [goodRow, badRow, goodRow2]).length ∧
    (process_transactions id tsFix [goodRow, badRow, goodRow2] (-3)).chain.map
        (fun bl => bl.transactions.length) =
      0 :: List.replicate (validTxns [goodRow, badRow, goodRow2]).length 1 ∧
    (process_transactions id tsFix [goodRow, badRow, goodRow2]
        (-3)).all_transactions = validTxns [goodRow, badRow, goodRow2] :=
  ⟨by decide,
    nonpositive_batch_not_rejected id tsFix [goodRow, badRow, goodRow2] (-3)
      (by decide)⟩

end MLApp
